import Mathlib

/-!
Verification of the card-news generation pipeline (TypeScript source).

Strings are modelled as `List Char`.  Each definition mirrors one function of
the source:

* `extractJson`        — `BaseAgent.extractJson` (src/agents/base-agent.ts),
  including the trim / code-fence stripping and the depth/string/escape scan.
* `fixGo`              — the JSON repair pass of `DeveloperAgent.parseResponse`
  (src/agents/designer.ts, repair loop).
* `parseResponse`      — `DeveloperAgent.parseResponse`, with the platform
  `JSON.parse` collaborator passed in as a parameter.
* `validateAllSlides`  — the validation rule engine (src/validation/rules.ts).
* `PipelineContext`, `requireResearch` … — src pipeline context (accessors
  model `throw` as `Except.error`).
* `qaLoopGo` / `runPipelineFromQa` — the QA review / fix loop of `runPipeline`
  (src pipeline orchestrator), with the reviewer's reports supplied as a
  stream `Nat → QAReport`; the loop is compiled with an explicit fuel that
  starts at `maxQaLoops`, which over-approximates the loop guard and keeps the
  recursion structural.

`Json` is a model of JSON values used to state what a "valid JSON payload"
is for the extractor claims; `renderJson` is its textual form.
-/

-- ─── Character and list helpers ─────────────────────────────────────────

def isWsChar (c : Char) : Bool :=
  c == ' ' || c == '\t' || c == '\n' || c == '\r' || c == '\x0b' || c == '\x0c'

def trimLeftWs (s : List Char) : List Char := s.dropWhile isWsChar

def trimRightWs (s : List Char) : List Char := (s.reverse.dropWhile isWsChar).reverse

def trimWs (s : List Char) : List Char := trimRightWs (trimLeftWs s)

def startsWithChars : List Char → List Char → Bool
  | [], _ => true
  | _ :: _, [] => false
  | p :: ps, c :: cs => p == c && startsWithChars ps cs

def startsWithCI : List Char → List Char → Bool
  | [], _ => true
  | _ :: _, [] => false
  | p :: ps, c :: cs => p.toLower == c.toLower && startsWithCI ps cs

def anyPosition (f : List Char → Bool) : List Char → Bool
  | [] => f []
  | s@(_ :: rest) => f s || anyPosition f rest

def containsSub (p s : List Char) : Bool := anyPosition (startsWithChars p) s

def containsSubCI (p s : List Char) : Bool := anyPosition (startsWithCI p) s

def firstIdxOf (c : Char) : List Char → Option Nat
  | [] => none
  | x :: xs => if x = c then some 0 else (firstIdxOf c xs).map (· + 1)

def endsWithChars (p s : List Char) : Bool := startsWithChars p.reverse s.reverse

-- ─── Extractor (BaseAgent.extractJson) ──────────────────────────────────

/-- Largest index `j` in `w` with `w[j] = newline` and `j + 1 ≤ T`; models the
backtracking choice of the newline matched by the greedy fence regex header. -/
def lastNewlineLeGo : List Char → Nat → Nat → Option Nat → Option Nat
  | [], _, _, best => best
  | c :: cs, idx, T, best =>
      lastNewlineLeGo cs (idx + 1) T
        (if c = '\n' ∧ idx + 1 ≤ T then some idx else best)

def lastNewlineLe (w : List Char) (T : Nat) : Option Nat := lastNewlineLeGo w 0 T none

/-- The fence regex of `extractJson`:
`^(backtick×3)(json)?\s*\n([\s\S]*)\n(backtick×3)\s*$` (greedy), returning the
captured body when the trimmed text is a fenced block. -/
def stripFence (t : List Char) : Option (List Char) :=
  if startsWithChars (("\x60\x60\x60").data) t then
    let r1 := t.drop 3
    let r2 := if startsWithChars (("json").data) r1 then r1.drop 4 else r1
    let w := r2.takeWhile isWsChar
    let v := trimRightWs r2
    if endsWithChars ('\n' :: ("\x60\x60\x60").data) v then
      match lastNewlineLe w (v.length - 4) with
      | some j => some ((r2.drop (j + 1)).take (v.length - 4 - (j + 1)))
      | none => none
    else none
  else none

/-- The cleaned text of `extractJson`: trim, then strip an outer code fence. -/
def cleanText (s : List Char) : List Char :=
  let t := trimWs s
  match stripFence t with
  | some inner => trimWs inner
  | none => t

/-- The forward scan of `extractJson`: nesting depth, string-state flag and
escape-pending flag.  Returns the absolute index of the closing delimiter that
brings the depth back to zero, or `none` if the text is exhausted first. -/
def scanGo (od cd : Char) : List Char → Nat → Int → Bool → Bool → Option Nat
  | [], _, _, _, _ => none
  | ch :: rest, i, depth, inString, isEsc =>
      if isEsc then scanGo od cd rest (i + 1) depth inString false
      else if ch = '\\' then scanGo od cd rest (i + 1) depth inString inString
      else if ch = '\x22' then scanGo od cd rest (i + 1) depth (!inString) false
      else if inString then scanGo od cd rest (i + 1) depth inString false
      else if ch = od then scanGo od cd rest (i + 1) (depth + 1) inString false
      else if ch = cd then
        (if depth - 1 = 0 then some i
         else scanGo od cd rest (i + 1) (depth - 1) inString false)
      else scanGo od cd rest (i + 1) depth inString false

/-- The scan-and-slice step of `extractJson` on the cleaned text. -/
def extractScan (od cd : Char) (start : Nat) (cleaned : List Char) : List Char :=
  match scanGo od cd (cleaned.drop start) start 0 false false with
  | some idx => (cleaned.drop start).take (idx + 1 - start)
  | none => cleaned

/-- Delimiter selection (first brace vs first bracket) of `extractJson`. -/
def extractCore (cleaned : List Char) : List Char :=
  match firstIdxOf '\x7b' cleaned, firstIdxOf '\x5b' cleaned with
  | some b, some k =>
      if b < k then extractScan '\x7b' '\x7d' b cleaned
      else extractScan '\x5b' '\x5d' k cleaned
  | some b, none => extractScan '\x7b' '\x7d' b cleaned
  | none, some k => extractScan '\x5b' '\x5d' k cleaned
  | none, none => cleaned

/-- Model of `BaseAgent.extractJson`.  Total: the source never throws. -/
def extractJson (text : List Char) : List Char := extractCore (cleanText text)

-- ─── Model of JSON values (to state "valid JSON payload") ───────────────

mutual
inductive Json where
  | jnull : Json
  | jbool : Bool → Json
  | jnum : Int → Json
  | jstr : List Char → Json
  | jarr : JsonList → Json
  | jobj : JsonMembers → Json
inductive JsonList where
  | nil : JsonList
  | cons : Json → JsonList → JsonList
inductive JsonMembers where
  | nil : JsonMembers
  | cons : List Char → Json → JsonMembers → JsonMembers
end

def digitChar (k : Nat) : Char :=
  if k = 0 then '0' else if k = 1 then '1' else if k = 2 then '2'
  else if k = 3 then '3' else if k = 4 then '4' else if k = 5 then '5'
  else if k = 6 then '6' else if k = 7 then '7' else if k = 8 then '8' else '9'

def natCharsGo : Nat → Nat → List Char → List Char
  | 0, n, acc => digitChar (n % 10) :: acc
  | fuel + 1, n, acc =>
      if n < 10 then digitChar n :: acc
      else natCharsGo fuel (n / 10) (digitChar (n % 10) :: acc)

def natChars (n : Nat) : List Char := natCharsGo n n []

def intChars (n : Int) : List Char :=
  if n < 0 then '-' :: natChars n.natAbs else natChars n.natAbs

/-- JSON string-literal escaping of one character. -/
def escChar (c : Char) : List Char :=
  if c = '\x22' then ['\\', '\x22']
  else if c = '\\' then ['\\', '\\']
  else if c = '\n' then ['\\', 'n']
  else if c = '\r' then ['\\', 'r']
  else if c = '\t' then ['\\', 't']
  else [c]

def escChars : List Char → List Char
  | [] => []
  | c :: cs => escChar c ++ escChars cs

/-- Rendered JSON string literal (quotes, escaped content). -/
def renderStr (s : List Char) : List Char := '\x22' :: escChars s ++ ['\x22']

mutual
def renderJson : Json → List Char
  | .jnull => ("null").data
  | .jbool true => ("true").data
  | .jbool false => ("false").data
  | .jnum n => intChars n
  | .jstr s => renderStr s
  | .jarr es => '\x5b' :: renderElems es ++ ['\x5d']
  | .jobj ms => '\x7b' :: renderMembers ms ++ ['\x7d']
def renderElems : JsonList → List Char
  | .nil => []
  | .cons j .nil => renderJson j
  | .cons j (.cons j2 rest) => renderJson j ++ ',' :: renderElems (.cons j2 rest)
def renderMembers : JsonMembers → List Char
  | .nil => []
  | .cons k v .nil => renderStr k ++ ':' :: renderJson v
  | .cons k v (.cons k2 v2 rest) =>
      renderStr k ++ ':' :: renderJson v ++ ',' :: renderMembers (.cons k2 v2 rest)
end

/-- Whether a JSON value is an object or an array (the payload shapes the
extractor scans for). -/
def Json.isContainer : Json → Bool
  | .jarr _ => true
  | .jobj _ => true
  | _ => false

/-- Segment `cs` is scanned without effect by `scanGo` when outside a string at
positive depth: the scan neither returns nor changes the state. -/
def NeutralSeg (od cd : Char) (cs : List Char) : Prop :=
  ∀ rest i (d : Int), 1 ≤ d →
    scanGo od cd (cs ++ rest) i d false false =
      scanGo od cd rest (i + cs.length) d false false

/-- Segment `cs` is scanned without effect by `scanGo` while inside a string. -/
def StrNeutral (od cd : Char) (cs : List Char) : Prop :=
  ∀ rest i (d : Int),
    scanGo od cd (cs ++ rest) i d true false =
      scanGo od cd rest (i + cs.length) d true false

/-- The two delimiter modes of the extractor scan. -/
def delimPair (od cd : Char) : Prop :=
  (od = '\x7b' ∧ cd = '\x7d') ∨ (od = '\x5b' ∧ cd = '\x5d')

/-- A character the scan ignores outside strings (neither delimiter of either
mode, not a quote, not a backslash). -/
def plainChar (c : Char) : Bool :=
  !(c == '\x7b' || c == '\x7d' || c == '\x5b' || c == '\x5d' ||
    c == '\x22' || c == '\\')

-- ─── Repair pass (DeveloperAgent.parseResponse fix loop) ────────────────

/-- The repair loop of `DeveloperAgent.parseResponse`: walk the text tracking
string state and escape state, and escape literal newline / carriage-return /
tab characters occurring inside JSON string literals. -/
def fixGo : List Char → Bool → Bool → List Char
  | [], _, _ => []
  | ch :: rest, inStr, esc =>
      if esc then ch :: fixGo rest inStr false
      else if ch = '\\' ∧ inStr then ch :: fixGo rest inStr true
      else if ch = '\x22' then ch :: fixGo rest (!inStr) false
      else if inStr ∧ ch = '\n' then '\\' :: 'n' :: fixGo rest inStr false
      else if inStr ∧ ch = '\r' then '\\' :: 'r' :: fixGo rest inStr false
      else if inStr ∧ ch = '\t' then '\\' :: 't' :: fixGo rest inStr false
      else ch :: fixGo rest inStr false

/-- The repair pass applied to a whole extracted slice. -/
def fixString (s : List Char) : List Char := fixGo s false false

-- ─── Pipeline stage schema (src pipeline types) ─────────────────────────

inductive EmotionPhase where
  | empathy | transition | evidence | action
  deriving DecidableEq

inductive SlideRole where
  | cover | body | cta
  deriving DecidableEq

inductive LayoutPattern where
  | infoStats | infoQuote | infoDefinition | infoList | infoHighlight
  | infoCallout | infoIconGrid
  | procSteps | procTimeline | procNumbered | procFlowchart | procChecklist
  | compBeforeAfter | compVersus | compTable
  | dataBar | dataPie | dataMetric
  | emphBigText | emphCentered | emphSplit | emphGradient
  | codeSnippet | codeTerminal
  | mixedTextImage | mixedCardGrid
  | introCover | introCta
  deriving DecidableEq

structure KeyFact where
  fact : String
  source : Option String
  deriving DecidableEq

structure Statistic where
  value : String
  description : String
  source : Option String
  deriving DecidableEq

structure ResearchQuote where
  text : String
  author : Option String
  deriving DecidableEq

structure ResearchOutput where
  topic : String
  summary : String
  keyFacts : List KeyFact
  statistics : List Statistic
  quotes : List ResearchQuote
  targetAudience : String
  keywords : List String
  deriving DecidableEq

structure SlidePlan where
  slideNumber : Nat
  role : SlideRole
  emotionPhase : EmotionPhase
  emotionTemperature : Nat
  purpose : String
  direction : String
  deriving DecidableEq

structure PlanOutput where
  title : String
  subtitle : Option String
  totalSlides : Nat
  narrative : String
  slides : List SlidePlan
  deriving DecidableEq

structure SlideCopy where
  slideNumber : Nat
  role : SlideRole
  heading : Option String
  subheading : Option String
  bodyText : Option String
  bulletPoints : Option (List String)
  accentText : Option String
  footnote : Option String
  ctaText : Option String
  deriving DecidableEq

structure CopyOutput where
  title : String
  slides : List SlideCopy
  deriving DecidableEq

structure SlideDesign where
  slideNumber : Nat
  layoutPattern : LayoutPattern
  primaryColor : Option String
  secondaryColor : Option String
  backgroundColor : Option String
  notes : Option String
  deriving DecidableEq

structure ColorPalette where
  primary : String
  secondary : String
  accent : String
  background : String
  text : String
  deriving DecidableEq

structure DesignBriefOutput where
  seriesTheme : String
  colorPalette : ColorPalette
  slides : List SlideDesign
  deriving DecidableEq

inductive IssueSeverity where
  | high | medium | low
  deriving DecidableEq

structure QAIssue where
  slideNumber : Nat
  severity : IssueSeverity
  category : String
  description : String
  suggestion : Option String
  deriving DecidableEq

structure AutoCheckResult where
  rule : String
  passed : Bool
  detail : Option String
  deriving DecidableEq

inductive Verdict where
  | pass | needs_revision
  deriving DecidableEq

structure QAReport where
  passedAutoChecks : Bool
  autoCheckResults : List AutoCheckResult
  issues : List QAIssue
  overallVerdict : Verdict
  deriving DecidableEq

structure PipelineOptions where
  topic : String
  inputFile : Option String
  series : String
  slideCount : Nat
  outputDir : String
  model : Option String
  deriving DecidableEq

-- ─── Pipeline context (src pipeline context) ────────────────────────────

structure PipelineContext where
  options : PipelineOptions
  research : Option ResearchOutput := none
  plan : Option PlanOutput := none
  copy : Option CopyOutput := none
  designBrief : Option DesignBriefOutput := none
  htmlSlides : List (Nat × List Char) := []
  pngPaths : List (Nat × String) := []
  qaReport : Option QAReport := none
  qaIteration : Nat := 0
  rawResearchContent : Option String := none

/-- The failure kind of the `require*` accessors (`throw new Error(...)` in
the source, modelled as `Except.error`). -/
inductive PipelineError where
  | missingArtifact (message : String)
  deriving DecidableEq

def requireResearch (ctx : PipelineContext) : Except PipelineError ResearchOutput :=
  match ctx.research with
  | none => .error (.missingArtifact ("Research output not available. Run researcher first."))
  | some r => .ok r

def requirePlan (ctx : PipelineContext) : Except PipelineError PlanOutput :=
  match ctx.plan with
  | none => .error (.missingArtifact ("Plan output not available. Run contents-marketer first."))
  | some p => .ok p

def requireCopy (ctx : PipelineContext) : Except PipelineError CopyOutput :=
  match ctx.copy with
  | none => .error (.missingArtifact ("Copy output not available. Run contents-marketer first."))
  | some c => .ok c

def requireDesignBrief (ctx : PipelineContext) : Except PipelineError DesignBriefOutput :=
  match ctx.designBrief with
  | none => .error (.missingArtifact ("Design brief not available. Run designer first."))
  | some d => .ok d

/-- Model of `PipelineContext.hasBlockingIssues`. -/
def hasBlockingIssues (ctx : PipelineContext) : Bool :=
  match ctx.qaReport with
  | none => false
  | some r => r.issues.any fun i =>
      decide (i.severity = IssueSeverity.high) || decide (i.severity = IssueSeverity.medium)

-- ─── QA review / fix loop of runPipeline ────────────────────────────────

structure QAPhaseResult where
  reviewerCalls : Nat
  fixCalls : Nat
  ctx : PipelineContext
  qaLoops : Nat

/-- The `while (qaLoops < config.maxQaLoops)` QA loop of `runPipeline`.
`reports k` is the report returned by the semantic reviewer on its `k`-th
invocation (the reviewer is the only source of non-determinism here).  The
first argument after `maxQaLoops` is fuel, instantiated to `maxQaLoops` by
`runQaPhase`; it never runs out before the loop guard fails. -/
def qaLoopGo (reports : Nat → QAReport) (maxQaLoops : Nat) :
    Nat → PipelineContext → Nat → Nat → Nat → QAPhaseResult
  | 0, ctx, qaLoops, revCalls, fixCalls => ⟨revCalls, fixCalls, ctx, qaLoops⟩
  | fuel + 1, ctx, qaLoops, revCalls, fixCalls =>
      if qaLoops < maxQaLoops then
        let q := qaLoops + 1
        let r := reports qaLoops
        let ctx' := { ctx with qaReport := some r, qaIteration := q }
        if r.overallVerdict = Verdict.pass ∨ hasBlockingIssues ctx' = false then
          ⟨revCalls + 1, fixCalls, ctx', q⟩
        else if q < maxQaLoops then
          qaLoopGo reports maxQaLoops fuel ctx' q (revCalls + 1) (fixCalls + 1)
        else
          qaLoopGo reports maxQaLoops fuel ctx' q (revCalls + 1) fixCalls
      else ⟨revCalls, fixCalls, ctx, qaLoops⟩

def runQaPhase (reports : Nat → QAReport) (maxQaLoops : Nat)
    (ctx0 : PipelineContext) : QAPhaseResult :=
  qaLoopGo reports maxQaLoops maxQaLoops ctx0 0 0 0

structure PipelineOutcome where
  reviewerCalls : Nat
  fixCalls : Nat
  rendered : Bool
  qaWarning : Bool

/-- Model of `runPipeline` from the QA stage on: run the QA loop, then proceed to PNG
rendering unconditionally; afterwards an unresolved `needs_revision` verdict
is only reported as a warning (`log.warn`), never an error. -/
def runPipelineFromQa (reports : Nat → QAReport) (maxQaLoops : Nat)
    (ctx0 : PipelineContext) : PipelineOutcome :=
  let res := runQaPhase reports maxQaLoops ctx0
  { reviewerCalls := res.reviewerCalls
    fixCalls := res.fixCalls
    rendered := true
    qaWarning :=
      match res.ctx.qaReport with
      | some rep => decide (rep.overallVerdict = Verdict.needs_revision)
      | none => false }

/-- The loop break condition recorded in the source:
`ctx.qaReport.overallVerdict === "pass" || !ctx.hasBlockingIssues()`. -/
def qaBreak (r : QAReport) : Bool :=
  decide (r.overallVerdict = Verdict.pass) ||
    !(r.issues.any fun i =>
      decide (i.severity = IssueSeverity.high) || decide (i.severity = IssueSeverity.medium))

-- ─── Regex-matcher helpers for the validation rules ─────────────────────

def dropWs (s : List Char) : List Char := s.dropWhile isWsChar

def afterLit (p s : List Char) : Option (List Char) :=
  if startsWithChars p s then some (s.drop p.length) else none

def afterLitCI (p s : List Char) : Option (List Char) :=
  if startsWithCI p s then some (s.drop p.length) else none

def afterChar (c : Char) : List Char → Option (List Char)
  | [] => none
  | x :: r => if x = c then some r else none

def isQuoteChar (c : Char) : Bool := c == '\x22' || c == '\x27'

def natOfDigits (digs : List Char) : Nat :=
  digs.foldl (fun a c => a * 10 + (c.toNat - 48)) 0

/-- Global-regex scan: repeatedly try the matcher at each position, skipping
past each match (JS `lastIndex` semantics).  Fuel starts at the text length
and dominates the number of steps. -/
def scanAllGo {α : Type} (f : List Char → Option (Nat × α)) : Nat → List Char → List α
  | 0, _ => []
  | _ + 1, [] => []
  | fuel + 1, s@(_ :: _) =>
      match f s with
      | some (l, a) => a :: scanAllGo f fuel (s.drop (max l 1))
      | none => scanAllGo f fuel (s.drop 1)

def scanAll {α : Type} (f : List Char → Option (Nat × α)) (s : List Char) : List α :=
  scanAllGo f s.length s

/-- The regex `/overflow\s*:\s*hidden/` (case-sensitive) at this position. -/
def overflowHiddenAt (s : List Char) : Bool :=
  (((afterLit (("overflow").data) s).map dropWs).bind (afterChar ':')).elim false
    fun r => startsWithChars (("hidden").data) (dropWs r)

/-- The regex `/word-break\s*:\s*keep-all/` (case-sensitive) at this position. -/
def keepAllAt (s : List Char) : Bool :=
  (((afterLit (("word-break").data) s).map dropWs).bind (afterChar ':')).elim false
    fun r => startsWithChars (("keep-all").data) (dropWs r)

/-- The regex `/overflow-y\s*:\s*(scroll|auto)/i` at this position. -/
def overflowYAt (s : List Char) : Bool :=
  (((afterLitCI (("overflow-y").data) s).map dropWs).bind (afterChar ':')).elim false
    fun r =>
      startsWithCI (("scroll").data) (dropWs r) || startsWithCI (("auto").data) (dropWs r)

/-- The regex `/min-height\s*:\s*(\d+)px/gi` matcher: consumed length and the value. -/
def minHeightAt (s : List Char) : Option (Nat × Nat) :=
  (afterLitCI (("min-height").data) s).bind fun r1 =>
  (afterChar ':' (dropWs r1)).bind fun r2 =>
    let r3 := dropWs r2
    let digs := r3.takeWhile Char.isDigit
    if digs.isEmpty then none
    else
      (afterLitCI (("px").data) (r3.drop digs.length)).map fun r4 =>
        (s.length - r4.length, natOfDigits digs)

/-- The regex `/font-size\s*:\s*(\d+)px/gi` matcher: consumed length and the value. -/
def fontSizeAt (s : List Char) : Option (Nat × Nat) :=
  (afterLitCI (("font-size").data) s).bind fun r1 =>
  (afterChar ':' (dropWs r1)).bind fun r2 =>
    let r3 := dropWs r2
    let digs := r3.takeWhile Char.isDigit
    if digs.isEmpty then none
    else
      (afterLitCI (("px").data) (r3.drop digs.length)).map fun r4 =>
        (s.length - r4.length, natOfDigits digs)

/-- The bullet-class regex matcher: the literal class, optional whitespace,
an equals sign, a double-quoted run of non-quote characters containing the
word bullet (case-insensitive). -/
def bulletClsAt (s : List Char) : Option (Nat × Unit) :=
  (afterLitCI (("class").data) s).bind fun r1 =>
  (afterChar '=' (dropWs r1)).bind fun r2 =>
    match dropWs r2 with
    | q1 :: r3 =>
        if q1 = '\x22' then
          let run := r3.takeWhile (fun c => !(c == '\x22'))
          if containsSubCI (("bullet").data) run then
            match r3.drop run.length with
            | q2 :: r4 => if q2 = '\x22' then some (s.length - r4.length, ()) else none
            | [] => none
          else none
        else none
    | [] => none

/-- The keyword alternative `(?:src|href|url)` (case-insensitive). -/
def keywordAt (s : List Char) : Option (List Char) :=
  match afterLitCI (("src").data) s with
  | some r => some r
  | none =>
      match afterLitCI (("href").data) s with
      | some r => some r
      | none => afterLitCI (("url").data) s

/-- The delimiter class `[=(]`. -/
def refDelimAt : List Char → Option (List Char)
  | [] => none
  | c :: r => if c = '=' ∨ c = '(' then some r else none

/-- The optional single- or double-quote character class of the URL regex. -/
def quoteOpt : List Char → List Char
  | [] => []
  | c :: r => if isQuoteChar c then r else c :: r

/-- The scheme `(https?:\/\/)` (case-insensitive). -/
def schemeAt (s : List Char) : Option (List Char) :=
  match afterLitCI (("https://").data) s with
  | some r => some r
  | none => afterLitCI (("http://").data) s

/-- The external-URL regex matcher: a keyword (src, href or url), optional
whitespace, an equals sign or opening parenthesis, optional whitespace, an
optional quote, then an http or https scheme (case-insensitive).  Returns
consumed length and the matched text. -/
def urlRefAt (s : List Char) : Option (Nat × List Char) :=
  (keywordAt s).bind fun r1 =>
  (refDelimAt (dropWs r1)).bind fun r2 =>
  (schemeAt (quoteOpt (dropWs r2))).map fun r5 =>
    (s.length - r5.length, s.take (s.length - r5.length))

/-- The quoted accent class pattern (case-insensitive) at this position, used
inside the span matcher: the literal class, optional whitespace, an equals
sign, a quote, the word accent, a quote. -/
def clsAccentQuotedAt (t : List Char) : Bool :=
  ((afterLitCI (("class").data) t).bind fun r1 =>
   (afterChar '=' (dropWs r1)).bind fun r2 =>
     match dropWs r2 with
     | q1 :: r3 =>
         if isQuoteChar q1 then
           (afterLitCI (("accent").data) r3).bind fun r4 =>
             match r4 with
             | q2 :: _ => if isQuoteChar q2 then some () else none
             | [] => none
         else none
     | [] => none).isSome

/-- The accent-class regex matcher: the literal class, optional whitespace,
an equals sign, a quoted run of non-quote characters containing the word
accent (case-insensitive). -/
def accentClsAt (s : List Char) : Option (Nat × Unit) :=
  (afterLitCI (("class").data) s).bind fun r1 =>
  (afterChar '=' (dropWs r1)).bind fun r2 =>
    match dropWs r2 with
    | q1 :: r3 =>
        if isQuoteChar q1 then
          let run := r3.takeWhile (fun c => !(isQuoteChar c))
          if containsSubCI (("accent").data) run then
            match r3.drop run.length with
            | q2 :: r4 => if isQuoteChar q2 then some (s.length - r4.length, ()) else none
            | [] => none
          else none
        else none
    | [] => none

/-- The inline accent span regex matcher: a span opening tag whose non-gt
run contains the quoted accent class pattern. -/
def spanAccentAt (s : List Char) : Option (Nat × Unit) :=
  (afterLitCI (("<span").data) s).bind fun r =>
    let run := r.takeWhile (fun c => !(c == '>'))
    match r.drop run.length with
    | '>' :: _ =>
        if anyPosition clsAccentQuotedAt run then some (5 + run.length + 1, ()) else none
    | _ => none

/-- The regex `/<strong/gi` matcher. -/
def strongAt (s : List Char) : Option (Nat × Unit) :=
  (afterLitCI (("<strong").data) s).map fun _ => (7, ())

/-- The regex `/<!DOCTYPE\s+html>/i` at this position. -/
def doctypeAt (s : List Char) : Bool :=
  (afterLitCI (("<!doctype").data) s).elim false fun r =>
    let w := r.takeWhile isWsChar
    !w.isEmpty && startsWithCI (("html>").data) (r.drop w.length)

/-- The lang attribute regex at this position: the literal lang, optional
whitespace, an equals sign, optional whitespace, a quote, the letters ko, a
quote (case-insensitive). -/
def langKoAt (s : List Char) : Bool :=
  ((afterLitCI (("lang").data) s).bind fun r1 =>
   (afterChar '=' (dropWs r1)).bind fun r2 =>
     match dropWs r2 with
     | q1 :: r3 =>
         if isQuoteChar q1 then
           (afterLitCI (("ko").data) r3).bind fun r4 =>
             match r4 with
             | q2 :: _ => if isQuoteChar q2 then some () else none
             | [] => none
         else none
     | [] => none).isSome

-- ─── Validation rule engine (src/validation rules) ──────────────────────

structure ValidationResult where
  passed : Bool
  detail : Option String

structure ValidationRule where
  id : String
  description : String
  severity : IssueSeverity
  check : List Char → Nat → ValidationResult

def canvasSizeRule : ValidationRule :=
  { id := ("canvas-size")
    description := ("Canvas must be 1080x1440px")
    severity := .high
    check := fun html _ =>
      let has1080 := containsSub (("1080").data) html && containsSub (("1440").data) html
      { passed := has1080
        detail := if has1080 then none else some ("Missing 1080x1440 canvas dimensions") } }

def overflowHiddenRule : ValidationRule :=
  { id := ("overflow-hidden")
    description := ("overflow:hidden must be present")
    severity := .high
    check := fun html _ =>
      let hasOverflow := anyPosition overflowHiddenAt html
      { passed := hasOverflow
        detail := if hasOverflow then none else some ("Missing overflow:hidden") } }

def noVerticalOverflowRule : ValidationRule :=
  { id := ("no-vertical-overflow")
    description := ("Content must fit within the 1080x1440 canvas (no overflow)")
    severity := .high
    check := fun html _ =>
      let hasOverflowY := anyPosition overflowYAt html
      let tall := (scanAll minHeightAt html).any fun val => decide (360 ≤ val)
      let manyBullets := decide (6 ≤ (scanAll bulletClsAt html).length)
      let risk := hasOverflowY || (tall && manyBullets)
      { passed := !risk
        detail :=
          if risk then
            some ("Potential vertical overflow: reduce block heights/padding or bullet count")
          else none } }

def wordBreakRule : ValidationRule :=
  { id := ("word-break-keep-all")
    description := ("word-break:keep-all must be present for Korean text")
    severity := .high
    check := fun html _ =>
      let hasKeepAll := anyPosition keepAllAt html
      { passed := hasKeepAll
        detail := if hasKeepAll then none else some ("Missing word-break:keep-all") } }

def noExternalUrlsRule : ValidationRule :=
  { id := ("no-external-urls")
    description := ("No external URLs (CDN, http/https links)")
    severity := .high
    check := fun html _ =>
      let found := scanAll urlRefAt html
      let hasExternal := !found.isEmpty
      { passed := !hasExternal
        detail :=
          if hasExternal then
            some (("Found external URL references: ") ++
              String.intercalate (", ") ((found.take 3).map String.mk))
          else none } }

def minFontSizeRule : ValidationRule :=
  { id := ("min-font-size")
    description := ("No font size below 28px")
    severity := .high
    check := fun html _ =>
      let smallFonts := (scanAll fontSizeAt html).filter fun size => decide (size < 28)
      { passed := smallFonts.isEmpty
        detail :=
          if smallFonts.isEmpty then none
          else
            some (("Found font sizes below 28px: ") ++
              String.intercalate (", ") (smallFonts.map toString) ++ ("px")) } }

def bottomBarRule : ValidationRule :=
  { id := ("bottom-bar")
    description := ("Slide must have a .bottom-bar element")
    severity := .medium
    check := fun html _ =>
      let hasBar := containsSub (("bottom-bar").data) html
      { passed := hasBar
        detail := if hasBar then none else some ("Missing .bottom-bar element") } }

def accentLimitRule : ValidationRule :=
  { id := ("accent-limit")
    description := ("Max 2 accent elements per slide")
    severity := .medium
    check := fun html _ =>
      let accentCount := (scanAll accentClsAt html).length
      let inlineAccent := (scanAll spanAccentAt html).length
      let total := max accentCount inlineAccent
      { passed := decide (total ≤ 2)
        detail :=
          if 2 < total then
            some (("Found ") ++ toString total ++ (" accent elements (max 2)"))
          else none } }

def strongLimitRule : ValidationRule :=
  { id := ("strong-limit")
    description := ("Max 1 <strong> per slide")
    severity := .medium
    check := fun html _ =>
      let strongCount := (scanAll strongAt html).length
      { passed := decide (strongCount ≤ 1)
        detail :=
          if 1 < strongCount then
            some (("Found ") ++ toString strongCount ++ (" <strong> elements (max 1)"))
          else none } }

def hasDoctypeRule : ValidationRule :=
  { id := ("has-doctype")
    description := ("HTML must have DOCTYPE declaration")
    severity := .medium
    check := fun html _ =>
      let hasDoctype := anyPosition doctypeAt html
      { passed := hasDoctype
        detail := if hasDoctype then none else some ("Missing <!DOCTYPE html>") } }

def langKoRule : ValidationRule :=
  { id := ("lang-ko")
    description := ("HTML must have lang=\x27ko\x27 for Korean content")
    severity := .low
    check := fun html _ =>
      let hasLang := anyPosition langKoAt html
      { passed := hasLang
        detail := if hasLang then none else some ("Missing lang=\x27ko\x27 attribute") } }

def RULES : List ValidationRule :=
  [canvasSizeRule, overflowHiddenRule, noVerticalOverflowRule, wordBreakRule,
   noExternalUrlsRule, minFontSizeRule, bottomBarRule, accentLimitRule,
   strongLimitRule, hasDoctypeRule, langKoRule]

structure SlideRuleResult where
  rule : String
  severity : IssueSeverity
  passed : Bool
  detail : Option String

structure SlideValidationReport where
  slideNumber : Nat
  results : List SlideRuleResult

/-- Model of `validateSlide`: evaluate every rule against one slide of HTML. -/
def validateSlide (html : List Char) (slideNumber : Nat) : SlideValidationReport :=
  { slideNumber := slideNumber
    results := RULES.map fun rule =>
      let res := rule.check html slideNumber
      { rule := rule.id, severity := rule.severity, passed := res.passed,
        detail := res.detail } }

structure ValidationSummary where
  reports : List SlideValidationReport
  allPassed : Bool
  highCount : Nat
  mediumCount : Nat
  lowCount : Nat

def insertKey (n : Nat) : List Nat → List Nat
  | [] => [n]
  | m :: ms => if n ≤ m then n :: m :: ms else m :: insertKey n ms

/-- The key sort `[...slides.keys()].sort((a, b) => a - b)`. -/
def sortKeys : List Nat → List Nat
  | [] => []
  | n :: ns => insertKey n (sortKeys ns)

def tallyResults : List SlideRuleResult → Nat × Nat × Nat → Nat × Nat × Nat
  | [], acc => acc
  | r :: rs, (h, m, l) =>
      tallyResults rs
        (if r.passed then (h, m, l)
         else
           match r.severity with
           | .high => (h + 1, m, l)
           | .medium => (h, m + 1, l)
           | .low => (h, m, l + 1))

/-- The per-key loop of `validateAllSlides` (skips missing and empty HTML,
exactly the `if (!html) continue` of the source). -/
def validateGo (slides : List (Nat × List Char)) :
    List Nat → List SlideValidationReport × Nat × Nat × Nat
  | [] => ([], 0, 0, 0)
  | n :: ns =>
      match List.lookup n slides with
      | none => validateGo slides ns
      | some html =>
          if html = [] then validateGo slides ns
          else
            let rep := validateSlide html n
            let rest := validateGo slides ns
            let counts := tallyResults rep.results (rest.2.1, rest.2.2.1, rest.2.2.2)
            (rep :: rest.1, counts)

/-- Model of `validateAllSlides`: evaluate all slides (keys sorted ascending) and
aggregate severity counts; `allPassed` is set from the final counts. -/
def validateAllSlides (slides : List (Nat × List Char)) : ValidationSummary :=
  let keys := sortKeys ((slides.map Prod.fst).dedup)
  let r := validateGo slides keys
  { reports := r.1
    highCount := r.2.1
    mediumCount := r.2.2.1
    lowCount := r.2.2.2
    allPassed := (r.2.1 == 0) && (r.2.2.1 == 0) }

-- ─── Developer agent decode (DeveloperAgent.parseResponse) ──────────────

def jsGetMember : JsonMembers → List Char → Option Json
  | .nil, _ => none
  | .cons k v rest, key => if k = key then some v else jsGetMember rest key

/-- JS property access `obj.field` on a parsed JSON value (`undefined`, i.e.
`none`, on non-objects and missing fields; accessing a field of `null`
throws in JS, which the decode surfaces as an error either way). -/
def jsGetField : Json → List Char → Option Json
  | .jobj ms, key => jsGetMember ms key
  | _, _ => none

/-- JS falsiness of a parsed JSON value. -/
def jsFalsy : Json → Bool
  | .jnull => true
  | .jbool b => !b
  | .jnum n => decide (n = 0)
  | .jstr s => s.isEmpty
  | .jarr _ => false
  | .jobj _ => false

inductive DevError where
  | parseFailure (preview : List Char)
  | missingSlides
  | invalidSlide
  deriving DecidableEq

structure DevSlide where
  slideNumber : Int
  html : List Char
  deriving DecidableEq

structure DeveloperOutput where
  slides : List DevSlide
  deriving DecidableEq

/-- The per-slide structure check of `parseResponse`:
`typeof slide.slideNumber !== "number" || typeof slide.html !== "string"`
raises; otherwise the record is kept. -/
def checkSlides : JsonList → Except DevError (List DevSlide)
  | .nil => .ok []
  | .cons j rest =>
      match jsGetField j (("slideNumber").data), jsGetField j (("html").data) with
      | some (.jnum n), some (.jstr h) => (checkSlides rest).map fun tl => ⟨n, h⟩ :: tl
      | _, _ => .error .invalidSlide

/-- The structure validation of `parseResponse`:
`if (!parsedObj.slides || !Array.isArray(parsedObj.slides)) throw`. -/
def validateStructure (parsed : Json) : Except DevError DeveloperOutput :=
  match jsGetField parsed (("slides").data) with
  | none => .error .missingSlides
  | some v =>
      if jsFalsy v then .error .missingSlides
      else
        match v with
        | .jarr es => (checkSlides es).map fun slides => ⟨slides⟩
        | _ => .error .missingSlides

/-- Model of `DeveloperAgent.parseResponse`, with the platform `JSON.parse`
collaborator passed in as `jsonParse` (returns `none` where `JSON.parse`
throws).  On double parse failure the raised error carries
`json.substring(0, 500)` as preview. -/
def parseResponse (jsonParse : List Char → Option Json) (text : List Char) :
    Except DevError DeveloperOutput :=
  let json := extractJson text
  match jsonParse json with
  | some parsed => validateStructure parsed
  | none =>
      let fixed := fixString json
      match jsonParse fixed with
      | some parsed => validateStructure parsed
      | none => .error (.parseFailure (json.take 500))

/-- Well-shaped developer payload: has a truthy `slides` array whose every
record carries a numeric `slideNumber` and a string `html`. -/
def slideOkB (j : Json) : Bool :=
  match jsGetField j (("slideNumber").data), jsGetField j (("html").data) with
  | some (.jnum _), some (.jstr _) => true
  | _, _ => false

def slideListOkB : JsonList → Bool
  | .nil => true
  | .cons j rest => slideOkB j && slideListOkB rest

def slidesShapeOk (v : Json) : Bool :=
  match jsGetField v (("slides").data) with
  | none => false
  | some w =>
      !(jsFalsy w) &&
        (match w with
         | .jarr es => slideListOkB es
         | _ => false)

-- ─── Position predicates for the no-external-urls rule ──────────────────

/-- An `http://` or `https://` scheme occurrence starts at index `q`. -/
def schemeAtPos (html : List Char) (q : Nat) : Bool :=
  (schemeAt (html.drop q)).isSome

/-- A reference preamble (keyword, optional whitespace, `=` or `(`, optional
whitespace, optional quote) starts at `p` and ends exactly at `q`. -/
def preambleTo (html : List Char) (p q : Nat) : Bool :=
  (((keywordAt (html.drop p)).bind fun r1 =>
    (refDelimAt (dropWs r1)).map fun r2 => quoteOpt (dropWs r2)).elim false
    fun r4 => decide (r4 = html.drop q))

/-- Index `q` is preceded by a reference preamble (regex semantics: any of
`src`, `href`, `url` followed by `=` or `(`). -/
def refPrecededAtPos (html : List Char) (q : Nat) : Bool :=
  (List.range (q + 1)).any fun p => preambleTo html p q

/-- The claim's literal reading of a reference position: `src=`, `href=`, or
`url(` (with optional whitespace and quoting, case-insensitive). -/
def origKeywordDelimAt (s : List Char) : Option (List Char) :=
  match afterLitCI (("src").data) s with
  | some r1 => afterChar '=' (dropWs r1)
  | none =>
      match afterLitCI (("href").data) s with
      | some r1 => afterChar '=' (dropWs r1)
      | none => (afterLitCI (("url").data) s).bind fun r1 => afterChar '(' (dropWs r1)

def origPreambleTo (html : List Char) (p q : Nat) : Bool :=
  (((origKeywordDelimAt (html.drop p)).map fun r2 => quoteOpt (dropWs r2)).elim false
    fun r4 => decide (r4 = html.drop q))

def origRefPrecededAtPos (html : List Char) (q : Nat) : Bool :=
  (List.range (q + 1)).any fun p => origPreambleTo html p q

/-- Whether `pre` contains no opening delimiter the extractor could anchor on. -/
def noOpenDelim (pre : List Char) : Bool :=
  pre.all fun c => !(c == '\x7b' || c == '\x5b')

-- ─── Concrete inputs used by witnesses and counterexamples ──────────────

def wOptions : PipelineOptions :=
  { topic := ("t"), inputFile := none, series := ("s"), slideCount := 5,
    outputDir := ("out"), model := none }

def wCtx : PipelineContext := { options := wOptions }

def wCtxFull : PipelineContext :=
  { options := wOptions
    research := some { topic := ("t"), summary := ("s"), keyFacts := [],
                       statistics := [], quotes := [], targetAudience := ("a"),
                       keywords := [] }
    plan := some { title := ("t"), subtitle := none, totalSlides := 3,
                   narrative := ("n"), slides := [] }
    copy := some { title := ("t"), slides := [] }
    designBrief := some { seriesTheme := ("th")
                          colorPalette := { primary := ("p"), secondary := ("s"),
                                            accent := ("a"), background := ("b"),
                                            text := ("t") }
                          slides := [] } }

def wIssueHigh : QAIssue :=
  { slideNumber := 1, severity := .high, category := ("layout"),
    description := ("overflow"), suggestion := none }

def wIssueLow : QAIssue :=
  { slideNumber := 2, severity := .low, category := ("style"),
    description := ("minor"), suggestion := none }

def wFailReport : QAReport :=
  { passedAutoChecks := false, autoCheckResults := [], issues := [wIssueHigh],
    overallVerdict := .needs_revision }

/-- A report whose verdict string (`needs_revision`) disagrees with the
blocking-issues predicate (only a low-severity issue). -/
def wLowOnlyReport : QAReport :=
  { passedAutoChecks := true, autoCheckResults := [], issues := [wIssueLow],
    overallVerdict := .needs_revision }

def wReportsC1 : Nat → QAReport := fun _ => wFailReport

def wReportsC4 : Nat → QAReport := fun k => if k = 0 then wFailReport else wLowOnlyReport

def c2FencedInput : List Char := ("\x60\x60\x60json\n\x7b\x22a\x22:1\x7d\n\x60\x60\x60").data

def c2Payload : Json := Json.jobj (.cons (("a").data) (.jnum 1) .nil)

def c2ProseInput : List Char := ("note \x7b \x7b\x22a\x22:1\x7d").data

def c2Prose : List Char := ("note \x7b ").data

def wParseNone : List Char → Option Json := fun _ => none

def c10FailingHtml : List Char := ("src(https://x").data

def c10PlainHtml : List Char := ("see https://x in text").data

-- ─── Generic list lemmas ────────────────────────────────────────────────

theorem take_drop_decomp (cs : List Char) (a b : Nat) :
    ∃ p q, cs = p ++ ((cs.drop a).take b) ++ q := by
  refine ⟨cs.take a, (cs.drop a).drop b, ?_⟩
  rw [List.append_assoc, List.take_append_drop, List.take_append_drop]

theorem extractScan_sub (od cd : Char) (st : Nat) (cs : List Char) :
    ∃ p q, cs = p ++ extractScan od cd st cs ++ q := by
  unfold extractScan
  cases h : scanGo od cd (cs.drop st) st 0 false false with
  | none => exact ⟨[], [], by simp⟩
  | some idx => exact take_drop_decomp cs st (idx + 1 - st)

theorem extractCore_sub (cs : List Char) :
    ∃ p q, cs = p ++ extractCore cs ++ q := by
  unfold extractCore
  cases h1 : firstIdxOf '\x7b' cs with
  | none =>
      cases h2 : firstIdxOf '\x5b' cs with
      | none => exact ⟨[], [], by simp⟩
      | some k => exact extractScan_sub '\x5b' '\x5d' k cs
  | some b =>
      cases h2 : firstIdxOf '\x5b' cs with
      | none => exact extractScan_sub '\x7b' '\x7d' b cs
      | some k =>
          by_cases hbk : b < k
          · simpa [hbk] using extractScan_sub '\x7b' '\x7d' b cs
          · simpa [hbk] using extractScan_sub '\x5b' '\x5d' k cs

/-- C6: for every input string, `extractJson` is total (never throws) and
returns a contiguous substring of the trimmed, fence-stripped input, hence
never longer than the cleaned input. -/
theorem extractJson_substring (s : List Char) :
    (∃ p q, cleanText s = p ++ extractJson s ++ q) ∧
      (extractJson s).length ≤ (cleanText s).length := by
  have main : ∃ p q, cleanText s = p ++ extractJson s ++ q := extractCore_sub (cleanText s)
  refine ⟨main, ?_⟩
  obtain ⟨p, q, hpq⟩ := main
  rw [hpq]
  simp [List.length_append]
  omega

-- ─── C7: the repair pass is idempotent ──────────────────────────────────

theorem fixGo_idem (s : List Char) : ∀ inStr esc,
    fixGo (fixGo s inStr esc) inStr esc = fixGo s inStr esc := by
  induction s with
  | nil => intro inStr esc; rfl
  | cons ch rest ih =>
      intro inStr esc
      cases esc with
      | true => simp [fixGo, ih]
      | false =>
          cases inStr with
          | false =>
              by_cases hbs : ch = '\\'
              · subst hbs; simp [fixGo, ih]
              · by_cases hq : ch = '\x22'
                · subst hq; simp [fixGo, ih]
                · simp [fixGo, hbs, hq, ih]
          | true =>
              by_cases hbs : ch = '\\'
              · subst hbs; simp [fixGo, ih]
              · by_cases hq : ch = '\x22'
                · subst hq; simp [fixGo, ih]
                · by_cases hn : ch = '\n'
                  · subst hn; simp [fixGo, ih]
                  · by_cases hr : ch = '\r'
                    · subst hr; simp [fixGo, ih]
                    · by_cases ht : ch = '\t'
                      · subst ht; simp [fixGo, ih]
                      · simp [fixGo, hbs, hq, hn, hr, ht, ih]

/-- C7: the repair pass that escapes literal newline, carriage-return and tab
characters inside string literals is idempotent: applying it twice equals
applying it once. -/
theorem repair_idempotent (s : List Char) : fixString (fixString s) = fixString s :=
  fixGo_idem s false false

-- ─── C3: allPassed is exactly "no high and no medium findings" ──────────

/-- C3: for every input slide map, `validateAllSlides` satisfies
`allPassed = true` iff `highCount = 0` and `mediumCount = 0`; the low
severity count plays no role. -/
theorem validateAllSlides_allPassed (slides : List (Nat × List Char)) :
    (validateAllSlides slides).allPassed = true ↔
      (validateAllSlides slides).highCount = 0 ∧
        (validateAllSlides slides).mediumCount = 0 := by
  unfold validateAllSlides
  simp

-- ─── C5: hasBlockingIssues characterization ─────────────────────────────

/-- C5: `hasBlockingIssues` returns true iff the current QA report exists and
contains at least one issue of severity high or medium; in particular it is
false whenever no report has been recorded (`none` admits no witness). -/
theorem hasBlockingIssues_iff (ctx : PipelineContext) :
    hasBlockingIssues ctx = true ↔
      ∃ r, ctx.qaReport = some r ∧
        ∃ i ∈ r.issues,
          i.severity = IssueSeverity.high ∨ i.severity = IssueSeverity.medium := by
  unfold hasBlockingIssues
  cases h : ctx.qaReport with
  | none => simp
  | some r => simp [List.any_eq_true]

-- ─── C8: stage accessors fail-fast with MissingArtifact ─────────────────

/-- C8: each `require*` accessor fails with a `MissingArtifact` error naming
the stage that must run first when its artifact slot is empty, and returns
exactly the stored artifact once it has been written. -/
theorem require_accessors (ctx : PipelineContext) :
    (ctx.research = none →
        requireResearch ctx =
          .error (.missingArtifact ("Research output not available. Run researcher first.")) ∧
          containsSub (("researcher").data)
            (("Research output not available. Run researcher first.").data) = true) ∧
    (∀ a, ctx.research = some a → requireResearch ctx = .ok a) ∧
    (ctx.plan = none →
        requirePlan ctx =
          .error (.missingArtifact ("Plan output not available. Run contents-marketer first.")) ∧
          containsSub (("contents-marketer").data)
            (("Plan output not available. Run contents-marketer first.").data) = true) ∧
    (∀ a, ctx.plan = some a → requirePlan ctx = .ok a) ∧
    (ctx.copy = none →
        requireCopy ctx =
          .error (.missingArtifact ("Copy output not available. Run contents-marketer first.")) ∧
          containsSub (("contents-marketer").data)
            (("Copy output not available. Run contents-marketer first.").data) = true) ∧
    (∀ a, ctx.copy = some a → requireCopy ctx = .ok a) ∧
    (ctx.designBrief = none →
        requireDesignBrief ctx =
          .error (.missingArtifact ("Design brief not available. Run designer first.")) ∧
          containsSub (("designer").data)
            (("Design brief not available. Run designer first.").data) = true) ∧
    (∀ a, ctx.designBrief = some a → requireDesignBrief ctx = .ok a) := by
  refine ⟨fun h => ⟨by simp [requireResearch, h], by decide⟩,
          fun a h => by simp [requireResearch, h],
          fun h => ⟨by simp [requirePlan, h], by decide⟩,
          fun a h => by simp [requirePlan, h],
          fun h => ⟨by simp [requireCopy, h], by decide⟩,
          fun a h => by simp [requireCopy, h],
          fun h => ⟨by simp [requireDesignBrief, h], by decide⟩,
          fun a h => by simp [requireDesignBrief, h]⟩

theorem require_accessors_witness :
    requireResearch wCtx =
      .error (.missingArtifact ("Research output not available. Run researcher first.")) ∧
    requirePlan wCtx =
      .error (.missingArtifact ("Plan output not available. Run contents-marketer first.")) ∧
    requireCopy wCtxFull = .ok { title := ("t"), slides := [] } ∧
    requireDesignBrief wCtx =
      .error (.missingArtifact ("Design brief not available. Run designer first.")) :=
  ⟨((require_accessors wCtx).1 rfl).1,
   ((require_accessors wCtx).2.2.1 rfl).1,
   (require_accessors wCtxFull).2.2.2.2.2.1 { title := ("t"), slides := [] } rfl,
   ((require_accessors wCtx).2.2.2.2.2.2.1 rfl).1⟩

-- ─── QA loop lemmas (C1, C4) ────────────────────────────────────────────

theorem hasBlocking_update (ctx : PipelineContext) (r : QAReport) (n : Nat) :
    hasBlockingIssues { ctx with qaReport := some r, qaIteration := n } =
      (r.issues.any fun i =>
        decide (i.severity = IssueSeverity.high) ||
          decide (i.severity = IssueSeverity.medium)) := rfl

/-- The break condition evaluated by the loop equals `qaBreak` of the report
just recorded into the context. -/
theorem qaBreak_iff (ctx : PipelineContext) (r : QAReport) (n : Nat) :
    (r.overallVerdict = Verdict.pass ∨
        hasBlockingIssues { ctx with qaReport := some r, qaIteration := n } = false) ↔
      qaBreak r = true := by
  rw [hasBlocking_update]
  unfold qaBreak
  simp

theorem findIdx_map_natfun (p : Nat → Bool) (f : Nat → Nat) (l : List Nat) :
    (l.map f).findIdx p = l.findIdx fun x => p (f x) := by
  induction l with
  | nil => rfl
  | cons a l ih => simp [List.findIdx_cons, ih]

theorem findIdx_range_succ (p : Nat → Bool) (n : Nat) :
    (List.range (n + 1)).findIdx p =
      if p 0 then 0 else ((List.range n).findIdx fun t => p (t + 1)) + 1 := by
  rw [List.range_succ_eq_map]
  by_cases h : p 0
  · simp [List.findIdx_cons, h]
  · simp [List.findIdx_cons, h, findIdx_map_natfun]

/-- Functional characterization of the QA loop: the reviewer is invoked until
the first report satisfying the break condition (capped by the bound), and
the developer fix pass runs on every earlier iteration except a final one at
the bound. -/
theorem qaLoopGo_spec (reports : Nat → QAReport) (maxQ : Nat) :
    ∀ fuel q rc fc ctx, maxQ ≤ fuel + q →
      (qaLoopGo reports maxQ fuel ctx q rc fc).reviewerCalls =
          rc + min (((List.range (maxQ - q)).findIdx fun t => qaBreak (reports (q + t))) + 1)
            (maxQ - q) ∧
        (qaLoopGo reports maxQ fuel ctx q rc fc).fixCalls =
          fc + min ((List.range (maxQ - q)).findIdx fun t => qaBreak (reports (q + t)))
            (maxQ - q - 1) := by
  intro fuel
  induction fuel with
  | zero =>
      intro q rc fc ctx h
      have h0 : maxQ - q = 0 := by omega
      simp [qaLoopGo, h0]
  | succ fuel ih =>
      intro q rc fc ctx h
      by_cases hq : q < maxQ
      · have hmq : maxQ - q = (maxQ - (q + 1)) + 1 := by omega
        have hfun : (fun t => qaBreak (reports (q + (t + 1)))) =
            fun t => qaBreak (reports (q + 1 + t)) := by
          funext t
          have ht : q + (t + 1) = q + 1 + t := by omega
          rw [ht]
        simp only [qaLoopGo, hq, if_true]
        by_cases hbr : qaBreak (reports q) = true
        · have hI : ((List.range (maxQ - q)).findIdx fun t => qaBreak (reports (q + t))) = 0 := by
            rw [hmq, findIdx_range_succ]
            simpa using hbr
          rw [if_pos ((qaBreak_iff ctx (reports q) (q + 1)).mpr hbr)]
          rw [hI]
          refine ⟨?_, ?_⟩
          · simp
            omega
          · simp
        · have hbf : qaBreak (reports q) = false := by
            rw [← Bool.not_eq_true]; exact hbr
          have hI : ((List.range (maxQ - q)).findIdx fun t => qaBreak (reports (q + t))) =
              ((List.range (maxQ - (q + 1))).findIdx fun t => qaBreak (reports (q + 1 + t))) + 1 := by
            rw [hmq, findIdx_range_succ]
            simp [hbf, hfun]
          rw [if_neg (fun hOr => hbr ((qaBreak_iff ctx (reports q) (q + 1)).mp hOr))]
          by_cases hq2 : q + 1 < maxQ
          · rw [if_pos hq2]
            obtain ⟨ih1, ih2⟩ :=
              ih (q + 1) (rc + 1) (fc + 1)
                { ctx with qaReport := some (reports q), qaIteration := q + 1 } (by omega)
            rw [ih1, ih2, hI, hmq]
            constructor <;> omega
          · rw [if_neg hq2]
            obtain ⟨ih1, ih2⟩ :=
              ih (q + 1) (rc + 1) fc
                { ctx with qaReport := some (reports q), qaIteration := q + 1 } (by omega)
            rw [ih1, ih2, hI, hmq]
            have hm0 : maxQ - (q + 1) = 0 := by omega
            rw [hm0]
            simp
      · have h0 : maxQ - q = 0 := by omega
        simp [qaLoopGo, hq, h0]

/-- C4: the loop exits (stops invoking the reviewer) exactly at the first
iteration whose recorded report satisfies the break condition — verdict
`pass` OR the context's blocking-issues predicate false — or when the
iteration bound is reached (the `min` cap); in particular a `needs_revision`
verdict cannot keep the loop running once the predicate reports no blocking
issues.  The second conjunct identifies the break condition used by the loop
with that disjunction. -/
theorem qa_loop_break_characterization (reports : Nat → QAReport) (maxQ : Nat)
    (ctx0 : PipelineContext) :
    ((runQaPhase reports maxQ ctx0).reviewerCalls =
        min (((List.range maxQ).findIdx fun k => qaBreak (reports k)) + 1) maxQ ∧
      (runQaPhase reports maxQ ctx0).fixCalls =
        min ((List.range maxQ).findIdx fun k => qaBreak (reports k)) (maxQ - 1)) ∧
    ∀ (ctx : PipelineContext) (r : QAReport) (n : Nat),
      qaBreak r = true ↔
        (r.overallVerdict = Verdict.pass ∨
          hasBlockingIssues { ctx with qaReport := some r, qaIteration := n } = false) := by
  constructor
  · have h := qaLoopGo_spec reports maxQ maxQ 0 0 0 ctx0 (by omega)
    simpa using h
  · intro ctx r n
    exact (qaBreak_iff ctx r n).symm

/-- C1: with a positive iteration bound, the QA phase invokes the semantic
reviewer at most `maxQaLoops` times and the developer fix pass at most
`maxQaLoops` times, whatever the reports contain; reaching the bound is not
fatal — the pipeline still proceeds to rendering. -/
theorem qa_loop_bounded (reports : Nat → QAReport) (maxQ : Nat)
    (ctx0 : PipelineContext) (_hpos : 0 < maxQ) :
    (runPipelineFromQa reports maxQ ctx0).reviewerCalls ≤ maxQ ∧
      (runPipelineFromQa reports maxQ ctx0).fixCalls ≤ maxQ ∧
      (runPipelineFromQa reports maxQ ctx0).rendered = true := by
  obtain ⟨h1, h2⟩ := qaLoopGo_spec reports maxQ maxQ 0 0 0 ctx0 (by omega)
  have e1 : (runPipelineFromQa reports maxQ ctx0).reviewerCalls =
      (runQaPhase reports maxQ ctx0).reviewerCalls := rfl
  have e2 : (runPipelineFromQa reports maxQ ctx0).fixCalls =
      (runQaPhase reports maxQ ctx0).fixCalls := rfl
  have e3 : (runPipelineFromQa reports maxQ ctx0).rendered = true := rfl
  refine ⟨?_, ?_, e3⟩
  · rw [e1]
    unfold runQaPhase
    rw [h1]
    simp
  · rw [e2]
    unfold runQaPhase
    rw [h2]
    simp

theorem qa_loop_bounded_witness :
    (0 < 2 ∧
        (runPipelineFromQa wReportsC1 2 wCtx).reviewerCalls ≤ 2 ∧
        (runPipelineFromQa wReportsC1 2 wCtx).fixCalls ≤ 2 ∧
        (runPipelineFromQa wReportsC1 2 wCtx).rendered = true) ∧
      (runPipelineFromQa wReportsC1 2 wCtx).reviewerCalls = 2 ∧
      (runPipelineFromQa wReportsC1 2 wCtx).fixCalls = 1 :=
  ⟨⟨by decide, qa_loop_bounded wReportsC1 2 wCtx (by decide)⟩, by decide, by decide⟩

-- ─── C10: no-external-urls rule ─────────────────────────────────────────

theorem dropWhile_is_drop (p : Char → Bool) (s : List Char) :
    ∃ a, s.dropWhile p = s.drop a := by
  induction s with
  | nil => exact ⟨0, rfl⟩
  | cons c cs ih =>
      by_cases h : p c = true
      · obtain ⟨a, ha⟩ := ih
        exact ⟨a + 1, by simp [List.dropWhile_cons, h, ha]⟩
      · exact ⟨0, by simp [List.dropWhile_cons, h]⟩

theorem dropWs_suffix (s : List Char) : ∃ a, dropWs s = s.drop a :=
  dropWhile_is_drop isWsChar s

theorem afterLitCI_suffix (p s r : List Char) (h : afterLitCI p s = some r) :
    r = s.drop p.length := by
  unfold afterLitCI at h
  by_cases hc : startsWithCI p s = true
  · simp [hc] at h
    exact h.symm
  · simp [hc] at h

theorem keywordAt_suffix (s r : List Char) (h : keywordAt s = some r) :
    ∃ a, r = s.drop a := by
  unfold keywordAt at h
  cases h1 : afterLitCI (("src").data) s with
  | some r1 =>
      rw [h1] at h
      exact ⟨3, by rw [← Option.some.inj h]; exact afterLitCI_suffix _ _ _ h1⟩
  | none =>
      rw [h1] at h
      cases h2 : afterLitCI (("href").data) s with
      | some r2 =>
          rw [h2] at h
          exact ⟨4, by rw [← Option.some.inj h]; exact afterLitCI_suffix _ _ _ h2⟩
      | none =>
          rw [h2] at h
          exact ⟨3, afterLitCI_suffix _ _ _ h⟩

theorem refDelimAt_suffix (s r : List Char) (h : refDelimAt s = some r) :
    ∃ a, r = s.drop a := by
  cases s with
  | nil => simp [refDelimAt] at h
  | cons c cs =>
      unfold refDelimAt at h
      by_cases hc : c = '=' ∨ c = '('
      · simp [hc] at h
        exact ⟨1, by rw [← h]; rfl⟩
      · simp [hc] at h

theorem quoteOpt_suffix (s : List Char) : ∃ a, quoteOpt s = s.drop a := by
  cases s with
  | nil => exact ⟨0, rfl⟩
  | cons c cs =>
      unfold quoteOpt
      by_cases hc : isQuoteChar c = true
      · exact ⟨1, by simp [hc]⟩
      · exact ⟨0, by simp [hc]⟩

theorem schemeAt_nonempty (s : List Char) (h : (schemeAt s).isSome = true) : s ≠ [] := by
  intro hs
  subst hs
  simp [schemeAt, afterLitCI, startsWithCI] at h

theorem urlRefAt_pos (html : List Char) (k : Nat)
    (h : (urlRefAt (html.drop k)).isSome = true) :
    ∃ q, schemeAtPos html q = true ∧ refPrecededAtPos html q = true ∧ q < html.length := by
  cases hk : keywordAt (html.drop k) with
  | none => simp [urlRefAt, hk] at h
  | some r1 =>
      cases hd : refDelimAt (dropWs r1) with
      | none => simp [urlRefAt, hk, hd] at h
      | some r2 =>
          have hs : (schemeAt (quoteOpt (dropWs r2))).isSome = true := by
            simpa [urlRefAt, hk, hd] using h
          obtain ⟨a1, ha1⟩ := keywordAt_suffix _ _ hk
          obtain ⟨a2, ha2⟩ := dropWs_suffix r1
          obtain ⟨a3, ha3⟩ := refDelimAt_suffix _ _ hd
          obtain ⟨a4, ha4⟩ := dropWs_suffix r2
          obtain ⟨a5, ha5⟩ := quoteOpt_suffix (dropWs r2)
          have hchain : quoteOpt (dropWs r2) = html.drop (a5 + (a4 + (a3 + (a2 + (a1 + k))))) := by
            rw [ha5, ha4, ha3, ha2, ha1]
            simp [List.drop_drop]
            congr 1
            omega
          refine ⟨a5 + (a4 + (a3 + (a2 + (a1 + k)))), ?_, ?_, ?_⟩
          · unfold schemeAtPos
            rw [← hchain]
            exact hs
          · unfold refPrecededAtPos
            rw [List.any_eq_true]
            refine ⟨k, List.mem_range.mpr (by omega), ?_⟩
            simp [preambleTo, hk, hd, hchain]
          · have hne : html.drop (a5 + (a4 + (a3 + (a2 + (a1 + k))))) ≠ [] := by
              rw [← hchain]
              exact schemeAt_nonempty _ hs
            by_contra hlen
            refine hne (List.drop_eq_nil_of_le (by omega))

theorem scanAllGo_pos {α : Type} (f : List Char → Option (Nat × α)) :
    ∀ fuel s, scanAllGo f fuel s ≠ [] → ∃ k, (f (s.drop k)).isSome = true := by
  intro fuel
  induction fuel with
  | zero => intro s h; simp [scanAllGo] at h
  | succ fuel ih =>
      intro s h
      cases s with
      | nil => simp [scanAllGo] at h
      | cons c cs =>
          cases hf : f (c :: cs) with
          | some la => exact ⟨0, by simp [hf]⟩
          | none =>
              have h2 : scanAllGo f fuel ((c :: cs).drop 1) ≠ [] := by
                simpa [scanAllGo, hf] using h
              obtain ⟨k, hk⟩ := ih _ h2
              exact ⟨k + 1, by simpa [List.drop_drop] using hk⟩

/-- C10 (amended): the high-severity no-external-urls rule passes on every
HTML string in which no `http(s)://` scheme occurrence is preceded by a
reference preamble — one of `src`, `href`, `url` followed (after optional
whitespace) by `=` or `(`, optional whitespace and an optional quote,
case-insensitively.  Schemes occurring anywhere else (e.g. plain visible
text) never fail the rule. -/
theorem no_external_urls_sound (html : List Char)
    (h : ((List.range html.length).all fun q =>
        !(schemeAtPos html q && refPrecededAtPos html q)) = true) :
    (noExternalUrlsRule.check html 0).passed = true := by
  have hpassed : (noExternalUrlsRule.check html 0).passed =
      (scanAll urlRefAt html).isEmpty := by
    simp [noExternalUrlsRule]
  rw [hpassed]
  by_contra hfail
  have hne : scanAll urlRefAt html ≠ [] := by
    simpa [List.isEmpty_iff] using hfail
  obtain ⟨k, hk⟩ := scanAllGo_pos urlRefAt html.length html hne
  obtain ⟨q, hq1, hq2, hq3⟩ := urlRefAt_pos html k hk
  rw [List.all_eq_true] at h
  have := h q (List.mem_range.mpr hq3)
  rw [hq1, hq2] at this
  simp at this

theorem no_external_urls_sound_witness :
    ((List.range c10PlainHtml.length).all fun q =>
        !(schemeAtPos c10PlainHtml q && refPrecededAtPos c10PlainHtml q)) = true ∧
      (noExternalUrlsRule.check c10PlainHtml 0).passed = true :=
  ⟨by decide, no_external_urls_sound c10PlainHtml (by decide)⟩

/-- C10 counterexample to the claim as stated: in `src(https://x` the scheme
occurrence is not preceded by `src=`, `href=` or `url(` (the claim's list of
reference positions), yet the rule fails, because the source regex accepts
any of the three keywords combined with either delimiter. -/
theorem no_external_urls_counterexample :
    ((List.range c10FailingHtml.length).all fun q =>
        !(schemeAtPos c10FailingHtml q && origRefPrecededAtPos c10FailingHtml q)) = true ∧
      (noExternalUrlsRule.check c10FailingHtml 0).passed = false := by
  constructor
  · decide
  · decide

-- ─── C9: developer decode rejects malformed payloads ────────────────────

theorem checkSlides_err : ∀ es : JsonList, slideListOkB es = false →
    ∃ e, checkSlides es = .error e
  | .nil, h => by simp [slideListOkB] at h
  | .cons j rest, h => by
      rw [slideListOkB] at h
      cases hsn : jsGetField j (("slideNumber").data) with
      | none => exact ⟨.invalidSlide, by simp [checkSlides, hsn]⟩
      | some v1 =>
          cases v1 with
          | jnum n =>
              cases hh : jsGetField j (("html").data) with
              | none => exact ⟨.invalidSlide, by simp [checkSlides, hsn, hh]⟩
              | some v2 =>
                  cases v2 with
                  | jstr s2 =>
                      have hok : slideOkB j = true := by simp [slideOkB, hsn, hh]
                      rw [hok] at h
                      simp at h
                      obtain ⟨e, he⟩ := checkSlides_err rest h
                      exact ⟨e, by simp [checkSlides, hsn, hh, he, Except.map]⟩
                  | jnull => exact ⟨.invalidSlide, by simp [checkSlides, hsn, hh]⟩
                  | jbool b => exact ⟨.invalidSlide, by simp [checkSlides, hsn, hh]⟩
                  | jnum m => exact ⟨.invalidSlide, by simp [checkSlides, hsn, hh]⟩
                  | jarr es2 => exact ⟨.invalidSlide, by simp [checkSlides, hsn, hh]⟩
                  | jobj ms2 => exact ⟨.invalidSlide, by simp [checkSlides, hsn, hh]⟩
          | jnull => exact ⟨.invalidSlide, by simp [checkSlides, hsn]⟩
          | jbool b => exact ⟨.invalidSlide, by simp [checkSlides, hsn]⟩
          | jstr s1 => exact ⟨.invalidSlide, by simp [checkSlides, hsn]⟩
          | jarr es1 => exact ⟨.invalidSlide, by simp [checkSlides, hsn]⟩
          | jobj ms1 => exact ⟨.invalidSlide, by simp [checkSlides, hsn]⟩

theorem validateStructure_err (v : Json) (h : slidesShapeOk v = false) :
    ∃ e, validateStructure v = .error e := by
  unfold slidesShapeOk at h
  cases hf : jsGetField v (("slides").data) with
  | none => exact ⟨.missingSlides, by simp [validateStructure, hf]⟩
  | some w =>
      rw [hf] at h
      cases w with
      | jarr es =>
          have h2 : slideListOkB es = false := by simpa [jsFalsy] using h
          obtain ⟨e, he⟩ := checkSlides_err es h2
          refine ⟨e, ?_⟩
          unfold validateStructure
          simp only [hf]
          simp [jsFalsy, he, Except.map]
      | jnull =>
          exact ⟨.missingSlides, by
            unfold validateStructure; simp only [hf]; split <;> rfl⟩
      | jbool b =>
          exact ⟨.missingSlides, by
            unfold validateStructure; simp only [hf]; split <;> rfl⟩
      | jnum n =>
          exact ⟨.missingSlides, by
            unfold validateStructure; simp only [hf]; split <;> rfl⟩
      | jstr s2 =>
          exact ⟨.missingSlides, by
            unfold validateStructure; simp only [hf]; split <;> rfl⟩
      | jobj ms =>
          exact ⟨.missingSlides, by
            unfold validateStructure; simp only [hf]; split <;> rfl⟩

theorem validateStructure_ok_shape (v : Json) (out : DeveloperOutput)
    (h : validateStructure v = .ok out) : slidesShapeOk v = true := by
  by_contra hsh
  rw [← Bool.not_eq_false] at hsh
  simp at hsh
  obtain ⟨e, he⟩ := validateStructure_err v hsh
  rw [he] at h
  simp at h

/-- C9: the build-stage decode raises an error — never silently defaults —
on every payload whose parsed value lacks a truthy `slides` array or whose
slide records miss a numeric `slideNumber` or a string content field; a
successful decode implies the shape was valid; and when parsing fails even
after the repair pass, the raised error carries a preview of at most 500
characters of the extracted slice. -/
theorem developer_decode_rejects (p : List Char → Option Json) (text : List Char) :
    (∀ v, p (extractJson text) = some v → slidesShapeOk v = false →
        ∃ e, parseResponse p text = .error e) ∧
    (∀ out, parseResponse p text = .ok out →
        ∃ v, (p (extractJson text) = some v ∨
            (p (extractJson text) = none ∧ p (fixString (extractJson text)) = some v)) ∧
          slidesShapeOk v = true) ∧
    (p (extractJson text) = none → p (fixString (extractJson text)) = none →
        parseResponse p text = .error (.parseFailure ((extractJson text).take 500)) ∧
          ((extractJson text).take 500).length ≤ 500) := by
  refine ⟨?_, ?_, ?_⟩
  · intro v hp hsh
    obtain ⟨e, he⟩ := validateStructure_err v hsh
    exact ⟨e, by simp [parseResponse, hp, he]⟩
  · intro out hok
    cases hp : p (extractJson text) with
    | some v =>
        have hval : validateStructure v = .ok out := by
          simpa [parseResponse, hp] using hok
        exact ⟨v, Or.inl rfl, validateStructure_ok_shape v out hval⟩
    | none =>
        cases hp2 : p (fixString (extractJson text)) with
        | some v =>
            have hval : validateStructure v = .ok out := by
              simpa [parseResponse, hp, hp2] using hok
            exact ⟨v, Or.inr ⟨rfl, rfl⟩, validateStructure_ok_shape v out hval⟩
        | none => simp [parseResponse, hp, hp2] at hok
  · intro hp hp2
    refine ⟨by simp [parseResponse, hp, hp2], ?_⟩
    simp [List.length_take]

theorem developer_decode_rejects_witness :
    parseResponse wParseNone (("x").data) =
        .error (.parseFailure ((extractJson (("x").data)).take 500)) ∧
      ((extractJson (("x").data)).take 500).length ≤ 500 :=
  (developer_decode_rejects wParseNone (("x").data)).2.2 rfl rfl

-- ─── C2: scan neutrality infrastructure ─────────────────────────────────

theorem neutral_nil (od cd : Char) : NeutralSeg od cd [] := by
  intro rest i d _
  simp

theorem neutral_append (od cd : Char) (a b : List Char)
    (ha : NeutralSeg od cd a) (hb : NeutralSeg od cd b) :
    NeutralSeg od cd (a ++ b) := by
  intro rest i d hd
  rw [List.append_assoc, ha (b ++ rest) i d hd, hb rest (i + a.length) d hd]
  congr 1
  simp [List.length_append]
  omega

theorem neutral_char (od cd c : Char) (h1 : ¬c = od) (h2 : ¬c = cd)
    (h3 : ¬c = '\x22') (h4 : ¬c = '\\') : NeutralSeg od cd [c] := by
  intro rest i d hd
  simp [scanGo, h1, h2, h3, h4]

theorem neutral_plain (od cd c : Char) (hp : delimPair od cd)
    (h : plainChar c = true) : NeutralSeg od cd [c] := by
  simp [plainChar] at h
  obtain ⟨⟨⟨⟨⟨hob, hcb⟩, hok⟩, hck⟩, hq⟩, hbs⟩ := h
  rcases hp with ⟨h1, h2⟩ | ⟨h1, h2⟩ <;> subst h1 <;> subst h2
  · exact neutral_char _ _ c hob hcb hq hbs
  · exact neutral_char _ _ c hok hck hq hbs

theorem neutral_all_plain (od cd : Char) (hp : delimPair od cd) :
    ∀ s : List Char, s.all plainChar = true → NeutralSeg od cd s := by
  intro s
  induction s with
  | nil => intro _; exact neutral_nil od cd
  | cons c cs ih =>
      intro h
      rw [List.all_cons] at h
      obtain ⟨h1, h2⟩ := (Bool.and_eq_true _ _).mp h
      exact neutral_append od cd [c] cs (neutral_plain od cd c hp h1) (ih h2)

theorem scan_str_escpair (od cd x : Char) (cs : List Char) (i : Nat) (d : Int) :
    scanGo od cd ('\\' :: x :: cs) i d true false =
      scanGo od cd cs (i + 1 + 1) d true false := by
  simp [scanGo]

theorem scan_str_plain (od cd c : Char) (cs : List Char) (i : Nat) (d : Int)
    (h1 : ¬c = '\\') (h2 : ¬c = '\x22') :
    scanGo od cd (c :: cs) i d true false = scanGo od cd cs (i + 1) d true false := by
  simp [scanGo, h1, h2]

theorem strNeutral_escChars (od cd : Char) (s : List Char) :
    StrNeutral od cd (escChars s) := by
  induction s with
  | nil => intro rest i d; simp [escChars]
  | cons c cs ih =>
      intro rest i d
      rw [escChars, List.append_assoc]
      by_cases h1 : c = '\x22'
      · subst h1
        rw [show escChar '\x22' = ['\\', '\x22'] from by decide]
        simp only [List.cons_append, List.nil_append]
        rw [scan_str_escpair, ih rest (i + 1 + 1) d]
        congr 1
        simp
        omega
      · by_cases h2 : c = '\\'
        · subst h2
          rw [show escChar '\\' = ['\\', '\\'] from by decide]
          simp only [List.cons_append, List.nil_append]
          rw [scan_str_escpair, ih rest (i + 1 + 1) d]
          congr 1
          simp
          omega
        · by_cases h3 : c = '\n'
          · subst h3
            rw [show escChar '\n' = ['\\', 'n'] from by decide]
            simp only [List.cons_append, List.nil_append]
            rw [scan_str_escpair, ih rest (i + 1 + 1) d]
            congr 1
            simp
            omega
          · by_cases h4 : c = '\r'
            · subst h4
              rw [show escChar '\r' = ['\\', 'r'] from by decide]
              simp only [List.cons_append, List.nil_append]
              rw [scan_str_escpair, ih rest (i + 1 + 1) d]
              congr 1
              simp
              omega
            · by_cases h5 : c = '\t'
              · subst h5
                rw [show escChar '\t' = ['\\', 't'] from by decide]
                simp only [List.cons_append, List.nil_append]
                rw [scan_str_escpair, ih rest (i + 1 + 1) d]
                congr 1
                simp
                omega
              · rw [show escChar c = [c] from by
                    unfold escChar; simp [h1, h2, h3, h4, h5]]
                simp only [List.cons_append, List.nil_append]
                rw [scan_str_plain od cd c _ i d h2 h1, ih rest (i + 1) d]
                congr 1
                simp
                omega

theorem neutral_renderStr (od cd : Char) (hp : delimPair od cd) (s : List Char) :
    NeutralSeg od cd (renderStr s) := by
  intro rest i d hd
  have hodq : ¬od = '\x22' := by
    rcases hp with ⟨h1, _⟩ | ⟨h1, _⟩ <;> subst h1 <;> decide
  rw [renderStr]
  simp only [List.cons_append, List.append_assoc, List.singleton_append, List.nil_append]
  rw [show scanGo od cd ('\x22' :: (escChars s ++ ('\x22' :: rest))) i d false false =
      scanGo od cd (escChars s ++ ('\x22' :: rest)) (i + 1) d true false from by
    simp [scanGo]]
  rw [strNeutral_escChars od cd s ('\x22' :: rest) (i + 1) d]
  rw [show scanGo od cd ('\x22' :: rest) (i + 1 + (escChars s).length) d true false =
      scanGo od cd rest (i + 1 + (escChars s).length + 1) d false false from by
    simp [scanGo]]
  congr 1
  simp
  omega

theorem digitChar_plain (k : Nat) : plainChar (digitChar k) = true := by
  unfold digitChar
  split_ifs <;> decide

theorem natCharsGo_all_plain :
    ∀ (fuel n : Nat) (acc : List Char), acc.all plainChar = true →
      (natCharsGo fuel n acc).all plainChar = true := by
  intro fuel
  induction fuel with
  | zero => intro n acc h; simp [natCharsGo, List.all_cons, digitChar_plain, h]
  | succ fuel ih =>
      intro n acc h
      rw [natCharsGo]
      by_cases hn : n < 10
      · simp [hn, List.all_cons, digitChar_plain, h]
      · simp only [hn, if_false]
        exact ih (n / 10) _ (by simp [List.all_cons, digitChar_plain, h])

theorem intChars_all_plain (n : Int) : (intChars n).all plainChar = true := by
  unfold intChars natChars
  by_cases hn : n < 0
  · simp only [hn, if_true]
    rw [List.all_cons]
    refine (Bool.and_eq_true _ _).mpr ⟨by decide, ?_⟩
    exact natCharsGo_all_plain _ _ [] rfl
  · simp only [hn, if_false]
    exact natCharsGo_all_plain _ _ [] rfl

theorem neutral_wrap (od cd : Char) (hp : delimPair od cd) (inner : List Char)
    (h : NeutralSeg od cd inner) : NeutralSeg od cd (od :: inner ++ [cd]) := by
  intro rest i d hd
  have hne : ¬od = cd := by
    rcases hp with ⟨h1, h2⟩ | ⟨h1, h2⟩ <;> subst h1 <;> subst h2 <;> decide
  have hobs : ¬od = '\\' := by
    rcases hp with ⟨h1, _⟩ | ⟨h1, _⟩ <;> subst h1 <;> decide
  have hoq : ¬od = '\x22' := by
    rcases hp with ⟨h1, _⟩ | ⟨h1, _⟩ <;> subst h1 <;> decide
  have hcbs : ¬cd = '\\' := by
    rcases hp with ⟨_, h2⟩ | ⟨_, h2⟩ <;> subst h2 <;> decide
  have hcq : ¬cd = '\x22' := by
    rcases hp with ⟨_, h2⟩ | ⟨_, h2⟩ <;> subst h2 <;> decide
  simp only [List.cons_append, List.append_assoc, List.singleton_append, List.nil_append]
  rw [show scanGo od cd (od :: (inner ++ (cd :: rest))) i d false false =
      scanGo od cd (inner ++ (cd :: rest)) (i + 1) (d + 1) false false from by
    simp [scanGo, hobs, hoq]]
  rw [h (cd :: rest) (i + 1) (d + 1) (by omega)]
  rw [show scanGo od cd (cd :: rest) (i + 1 + inner.length) (d + 1) false false =
      scanGo od cd rest (i + 1 + inner.length + 1) (d + 1 - 1) false false from by
    have hd0 : ¬d = 0 := by omega
    have hco : ¬cd = od := fun hh => hne hh.symm
    simp [scanGo, hcbs, hcq, hco, hd0]]
  congr 1
  · simp
    omega
  · omega

mutual
theorem neutral_renderJson (od cd : Char) (hp : delimPair od cd) :
    ∀ j : Json, NeutralSeg od cd (renderJson j)
  | .jnull => by rw [renderJson]; exact neutral_all_plain od cd hp _ (by decide)
  | .jbool true => by rw [renderJson]; exact neutral_all_plain od cd hp _ (by decide)
  | .jbool false => by rw [renderJson]; exact neutral_all_plain od cd hp _ (by decide)
  | .jnum n => by rw [renderJson]; exact neutral_all_plain od cd hp _ (intChars_all_plain n)
  | .jstr s => by rw [renderJson]; exact neutral_renderStr od cd hp s
  | .jarr es => by
      rw [renderJson]
      rcases hp with ⟨h1, h2⟩ | ⟨h1, h2⟩
      · subst h1; subst h2
        rw [show ('\x5b' :: renderElems es ++ ['\x5d'] : List Char) =
            ['\x5b'] ++ renderElems es ++ ['\x5d'] from rfl]
        exact neutral_append _ _ _ _
          (neutral_append _ _ _ _
            (neutral_char _ _ _ (by decide) (by decide) (by decide) (by decide))
            (neutral_renderElems _ _ (Or.inl ⟨rfl, rfl⟩) es))
          (neutral_char _ _ _ (by decide) (by decide) (by decide) (by decide))
      · subst h1; subst h2
        exact neutral_wrap _ _ (Or.inr ⟨rfl, rfl⟩) _
          (neutral_renderElems _ _ (Or.inr ⟨rfl, rfl⟩) es)
  | .jobj ms => by
      rw [renderJson]
      rcases hp with ⟨h1, h2⟩ | ⟨h1, h2⟩
      · subst h1; subst h2
        exact neutral_wrap _ _ (Or.inl ⟨rfl, rfl⟩) _
          (neutral_renderMembers _ _ (Or.inl ⟨rfl, rfl⟩) ms)
      · subst h1; subst h2
        rw [show ('\x7b' :: renderMembers ms ++ ['\x7d'] : List Char) =
            ['\x7b'] ++ renderMembers ms ++ ['\x7d'] from rfl]
        exact neutral_append _ _ _ _
          (neutral_append _ _ _ _
            (neutral_char _ _ _ (by decide) (by decide) (by decide) (by decide))
            (neutral_renderMembers _ _ (Or.inr ⟨rfl, rfl⟩) ms))
          (neutral_char _ _ _ (by decide) (by decide) (by decide) (by decide))

theorem neutral_renderElems (od cd : Char) (hp : delimPair od cd) :
    ∀ es : JsonList, NeutralSeg od cd (renderElems es)
  | .nil => by rw [renderElems]; exact neutral_nil od cd
  | .cons j .nil => by rw [renderElems]; exact neutral_renderJson od cd hp j
  | .cons j (.cons j2 rest2) => by
      rw [renderElems]
      rw [show renderJson j ++ ',' :: renderElems (.cons j2 rest2) =
          renderJson j ++ ([','] ++ renderElems (.cons j2 rest2)) from rfl]
      exact neutral_append _ _ _ _ (neutral_renderJson od cd hp j)
        (neutral_append _ _ _ _ (neutral_plain od cd ',' hp (by decide))
          (neutral_renderElems od cd hp (.cons j2 rest2)))

theorem neutral_renderMembers (od cd : Char) (hp : delimPair od cd) :
    ∀ ms : JsonMembers, NeutralSeg od cd (renderMembers ms)
  | .nil => by rw [renderMembers]; exact neutral_nil od cd
  | .cons k v .nil => by
      rw [renderMembers]
      rw [show renderStr k ++ ':' :: renderJson v =
          renderStr k ++ ([':'] ++ renderJson v) from rfl]
      exact neutral_append _ _ _ _ (neutral_renderStr od cd hp k)
        (neutral_append _ _ _ _ (neutral_plain od cd ':' hp (by decide))
          (neutral_renderJson od cd hp v))
  | .cons k v (.cons k2 v2 rest2) => by
      rw [renderMembers]
      rw [show renderStr k ++ ':' :: renderJson v ++ ',' :: renderMembers (.cons k2 v2 rest2) =
          renderStr k ++ ([':'] ++ (renderJson v ++ ([','] ++
            renderMembers (.cons k2 v2 rest2)))) from by simp]
      exact neutral_append _ _ _ _ (neutral_renderStr od cd hp k)
        (neutral_append _ _ _ _ (neutral_plain od cd ':' hp (by decide))
          (neutral_append _ _ _ _ (neutral_renderJson od cd hp v)
            (neutral_append _ _ _ _ (neutral_plain od cd ',' hp (by decide))
              (neutral_renderMembers od cd hp (.cons k2 v2 rest2)))))
end

theorem firstIdxOf_append (ch : Char) (pre rest : List Char) (h : ∀ c ∈ pre, ¬c = ch) :
    firstIdxOf ch (pre ++ rest) = (firstIdxOf ch rest).map (· + pre.length) := by
  induction pre with
  | nil =>
      rw [List.nil_append]
      cases h0 : firstIdxOf ch rest <;> simp
  | cons c pre ih =>
      have hc : ¬c = ch := h c (by simp)
      have hrest : ∀ x ∈ pre, ¬x = ch := fun x hx => h x (by simp [hx])
      rw [List.cons_append, firstIdxOf]
      simp only [if_neg hc]
      rw [ih hrest]
      cases firstIdxOf ch rest with
      | none => simp
      | some a =>
          simp
          omega

theorem extractScan_payload (od cd : Char) (hp : delimPair od cd)
    (pre inner post : List Char) (hn : NeutralSeg od cd inner) :
    extractScan od cd pre.length (pre ++ (od :: inner ++ [cd]) ++ post) =
      od :: inner ++ [cd] := by
  have hobs : ¬od = '\\' := by
    rcases hp with ⟨h1, _⟩ | ⟨h1, _⟩ <;> subst h1 <;> decide
  have hoq : ¬od = '\x22' := by
    rcases hp with ⟨h1, _⟩ | ⟨h1, _⟩ <;> subst h1 <;> decide
  have hcbs : ¬cd = '\\' := by
    rcases hp with ⟨_, h2⟩ | ⟨_, h2⟩ <;> subst h2 <;> decide
  have hcq : ¬cd = '\x22' := by
    rcases hp with ⟨_, h2⟩ | ⟨_, h2⟩ <;> subst h2 <;> decide
  have hco : ¬cd = od := by
    rcases hp with ⟨h1, h2⟩ | ⟨h1, h2⟩ <;> subst h1 <;> subst h2 <;> decide
  unfold extractScan
  have hdrop : (pre ++ (od :: inner ++ [cd]) ++ post).drop pre.length =
      (od :: inner ++ [cd]) ++ post := by
    rw [List.append_assoc, List.drop_left]
  rw [hdrop]
  simp only [List.cons_append, List.append_assoc, List.nil_append, List.singleton_append]
  have hscan : scanGo od cd (od :: (inner ++ cd :: post)) pre.length 0 false false =
      some (pre.length + 1 + inner.length) := by
    rw [show scanGo od cd (od :: (inner ++ cd :: post)) pre.length 0 false false =
        scanGo od cd (inner ++ cd :: post) (pre.length + 1) (0 + 1) false false from by
      simp [scanGo, hobs, hoq]]
    rw [show (0 : Int) + 1 = 1 from by omega]
    rw [hn (cd :: post) (pre.length + 1) 1 (by omega)]
    simp [scanGo, hcbs, hcq, hco]
  simp only [hscan]
  rw [show pre.length + 1 + inner.length + 1 - pre.length = inner.length + 1 + 1 from by
    omega]
  rw [List.take_succ_cons]
  congr 1
  rw [show (inner ++ cd :: post) = (inner ++ [cd]) ++ post from by simp]
  rw [show inner.length + 1 = (inner ++ [cd]).length from by simp]
  exact List.take_left _ _

/-- C2 (amended): for every input whose cleaned text is a rendered JSON
object or array payload embedded in surrounding text, where the text before
the payload contains no opening brace or bracket (the scanner anchors at the
first such character), `extractJson` returns exactly the payload: the minimal
well-formed substring spanning the outermost balanced delimiter pair,
regardless of delimiters occurring inside the payload's string literals. -/
theorem extractJson_payload (s pre post : List Char) (j : Json)
    (hj : j.isContainer = true) (hpre : noOpenDelim pre = true)
    (hclean : cleanText s = pre ++ renderJson j ++ post) :
    extractJson s = renderJson j := by
  unfold extractJson
  rw [hclean]
  simp only [noOpenDelim, List.all_eq_true] at hpre
  have hpreB : ∀ c ∈ pre, ¬c = '\x7b' := by
    intro c hc
    have := hpre c hc
    simp at this
    exact this.1
  have hpreK : ∀ c ∈ pre, ¬c = '\x5b' := by
    intro c hc
    have := hpre c hc
    simp at this
    exact this.2
  cases j with
  | jnull => simp [Json.isContainer] at hj
  | jbool b => simp [Json.isContainer] at hj
  | jnum n => simp [Json.isContainer] at hj
  | jstr s2 => simp [Json.isContainer] at hj
  | jobj ms =>
      rw [renderJson]
      unfold extractCore
      have h1 : firstIdxOf '\x7b'
          (pre ++ ('\x7b' :: renderMembers ms ++ ['\x7d']) ++ post) = some pre.length := by
        rw [List.append_assoc, firstIdxOf_append _ _ _ hpreB]
        simp [firstIdxOf]
      have h2 : ∀ k, firstIdxOf '\x5b'
          (pre ++ ('\x7b' :: renderMembers ms ++ ['\x7d']) ++ post) = some k →
            pre.length < k := by
        intro k hk
        rw [List.append_assoc, firstIdxOf_append _ _ _ hpreK] at hk
        rw [show (('\x7b' :: renderMembers ms ++ ['\x7d']) ++ post) =
            '\x7b' :: (renderMembers ms ++ ['\x7d'] ++ post) from by simp] at hk
        rw [firstIdxOf] at hk
        rw [if_neg (by decide)] at hk
        cases ho : firstIdxOf '\x5b' (renderMembers ms ++ ['\x7d'] ++ post) with
        | none => rw [ho] at hk; simp at hk
        | some a =>
            rw [ho] at hk
            simp at hk
            omega
      cases hk : firstIdxOf '\x5b'
          (pre ++ ('\x7b' :: renderMembers ms ++ ['\x7d']) ++ post) with
      | none =>
          simp only [h1]
          exact extractScan_payload '\x7b' '\x7d' (Or.inl ⟨rfl, rfl⟩) pre _ post
            (neutral_renderMembers _ _ (Or.inl ⟨rfl, rfl⟩) ms)
      | some k =>
          simp only [h1]
          rw [if_pos (h2 k hk)]
          exact extractScan_payload '\x7b' '\x7d' (Or.inl ⟨rfl, rfl⟩) pre _ post
            (neutral_renderMembers _ _ (Or.inl ⟨rfl, rfl⟩) ms)
  | jarr es =>
      rw [renderJson]
      unfold extractCore
      have h1 : firstIdxOf '\x5b'
          (pre ++ ('\x5b' :: renderElems es ++ ['\x5d']) ++ post) = some pre.length := by
        rw [List.append_assoc, firstIdxOf_append _ _ _ hpreK]
        simp [firstIdxOf]
      have h2 : ∀ b, firstIdxOf '\x7b'
          (pre ++ ('\x5b' :: renderElems es ++ ['\x5d']) ++ post) = some b →
            pre.length < b := by
        intro b hb
        rw [List.append_assoc, firstIdxOf_append _ _ _ hpreB] at hb
        rw [show (('\x5b' :: renderElems es ++ ['\x5d']) ++ post) =
            '\x5b' :: (renderElems es ++ ['\x5d'] ++ post) from by simp] at hb
        rw [firstIdxOf] at hb
        rw [if_neg (by decide)] at hb
        cases ho : firstIdxOf '\x7b' (renderElems es ++ ['\x5d'] ++ post) with
        | none => rw [ho] at hb; simp at hb
        | some a =>
            rw [ho] at hb
            simp at hb
            omega
      cases hb : firstIdxOf '\x7b'
          (pre ++ ('\x5b' :: renderElems es ++ ['\x5d']) ++ post) with
      | none =>
          simp only [h1]
          exact extractScan_payload '\x5b' '\x5d' (Or.inr ⟨rfl, rfl⟩) pre _ post
            (neutral_renderElems _ _ (Or.inr ⟨rfl, rfl⟩) es)
      | some b =>
          simp only [h1]
          rw [if_neg (by
            have := h2 b hb
            omega)]
          exact extractScan_payload '\x5b' '\x5d' (Or.inr ⟨rfl, rfl⟩) pre _ post
            (neutral_renderElems _ _ (Or.inr ⟨rfl, rfl⟩) es)

theorem extractJson_payload_witness :
    extractJson c2FencedInput = renderJson c2Payload :=
  extractJson_payload c2FencedInput [] [] c2Payload (by decide) (by decide) (by decide)

/-- C2 counterexample to the claim as stated: `note (brace) (payload)` embeds
the valid JSON object payload rendered by `c2Payload` inside surrounding
prose, but the prose contains a stray opening brace, so `extractJson` returns
the whole cleaned text, not the payload's minimal balanced substring. -/
theorem extractJson_counterexample :
    cleanText c2ProseInput = c2Prose ++ renderJson c2Payload ++ [] ∧
      extractJson c2ProseInput = c2ProseInput ∧
      extractJson c2ProseInput ≠ renderJson c2Payload := by
  refine ⟨by decide, by decide, by decide⟩
